import Mathlib

/-!
Verification of the `pgdump_filter` line filter (src/src/main.rs).

Lines are modelled as lists of bytes (`List Nat`); the trailing newline,
when present, is part of the line, exactly as produced by Rust's
`read_until(b'\n', ..)`.  Strings decoded from bytes are modelled as lists
of Unicode code points.  The classifier `State.next_state`, the decider
`State.must_include` and the filter loop `runFilter` are direct
translations of the Rust source.
-/

namespace PgdumpFilter

/-- The classification states, from the `State` enum in main.rs. -/
inductive State where
  | Init
  | Comment
  | EmptyLine
  | ConsecutiveEmptyLine
  | ExcludedCopyBlock
  | EndOfExcludedCopyBlock
  | LargeObject
  | Statement
deriving DecidableEq, Repr

/-- The configuration, from the `Options` struct in main.rs.  Strings are
lists of Unicode code points; `buffersize_in_mb` is omitted because it is a
pure capacity hint that never reaches the classifier or decider. -/
structure Options where
  excluded_copy_blocks : List (List Nat)
  included_copy_blocks : List (List Nat)
  exclude_large_objects : Bool
  schema : List Nat
deriving DecidableEq, Repr

/-- Helper turning an ASCII string literal into its byte list (used only to
write concrete inputs in theorems; all bytes are < 128). -/
def ascii (s : String) : List Nat := s.data.map Char.toNat

/-- The pattern constant b"--" from the lazy_static block. -/
def COMMENT : List Nat := [45, 45]

/-- The pattern constant b"\\." from the lazy_static block. -/
def END_OF_COPY_BLOCK : List Nat := [92, 46]

/-- The pattern constant b"\n" from the lazy_static block. -/
def NEWLINE : List Nat := [10]

/-- The pattern constant b"COPY " from the lazy_static block. -/
def COPY_BLOCK_PREFIX : List Nat := [67, 79, 80, 89, 32]

/-- The pattern constant b"FROM stdin;\n" from the lazy_static block. -/
def COPY_BLOCK_SUFFIX : List Nat := [70, 82, 79, 77, 32, 115, 116, 100, 105, 110, 59, 10]

/-- The pattern constant b"SELECT pg_catalog.lo_create" from the lazy_static block. -/
def LO_CREATE : List Nat := [83, 69, 76, 69, 67, 84, 32, 112, 103, 95, 99, 97, 116, 97, 108, 111, 103, 46, 108, 111, 95, 99, 114, 101, 97, 116, 101]

/-- The pattern constant b"SELECT pg_catalog.lo_" from the lazy_static block. -/
def LO_FN : List Nat := [83, 69, 76, 69, 67, 84, 32, 112, 103, 95, 99, 97, 116, 97, 108, 111, 103, 46, 108, 111, 95]

/-- The pattern constant b"SELECT pg_catalog.lowrite" from the lazy_static block. -/
def LO_WRITE : List Nat := [83, 69, 76, 69, 67, 84, 32, 112, 103, 95, 99, 97, 116, 97, 108, 111, 103, 46, 108, 111, 119, 114, 105, 116, 101]

/-- A UTF-8 continuation byte (10xxxxxx). -/
def IsCont (b : Nat) : Prop := 0x80 ≤ b ∧ b < 0xC0

instance (b : Nat) : Decidable (IsCont b) := by unfold IsCont; infer_instance

/-- UTF-8 decoding of a byte list into Unicode code points, with the
validation Rust's `String::from_utf8` performs: no stray continuation
bytes, no overlong encodings, no surrogates, nothing above U+10FFFF.
Returns `none` exactly when the bytes are not valid UTF-8. -/
def utf8Decode : List Nat → Option (List Nat)
  | [] => some []
  | b1 :: rest =>
    if b1 < 0x80 then
      match utf8Decode rest with
      | some cs => some (b1 :: cs)
      | none => none
    else if b1 < 0xC2 then none
    else if b1 < 0xE0 then
      match rest with
      | b2 :: rest2 =>
        if IsCont b2 then
          match utf8Decode rest2 with
          | some cs => some (((b1 - 0xC0) * 0x40 + (b2 - 0x80)) :: cs)
          | none => none
        else none
      | [] => none
    else if b1 < 0xF0 then
      match rest with
      | b2 :: b3 :: rest3 =>
        if IsCont b2 ∧ IsCont b3 ∧ (b1 = 0xE0 → 0xA0 ≤ b2) ∧ (b1 = 0xED → b2 < 0xA0) then
          match utf8Decode rest3 with
          | some cs =>
            some (((b1 - 0xE0) * 0x1000 + (b2 - 0x80) * 0x40 + (b3 - 0x80)) :: cs)
          | none => none
        else none
      | _ => none
    else if b1 < 0xF5 then
      match rest with
      | b2 :: b3 :: b4 :: rest4 =>
        if IsCont b2 ∧ IsCont b3 ∧ IsCont b4 ∧ (b1 = 0xF0 → 0x90 ≤ b2) ∧ (b1 = 0xF4 → b2 < 0x90) then
          match utf8Decode rest4 with
          | some cs =>
            some (((b1 - 0xF0) * 0x40000 + (b2 - 0x80) * 0x1000 + (b3 - 0x80) * 0x40 + (b4 - 0x80)) :: cs)
          | none => none
        else none
      | _ => none
    else none

/-- Lowercasing of a single code point.  Rust's `str::to_lowercase` is
full Unicode; every string the program ever matches against is ASCII, so
the case mapping is modelled at ASCII scope (A-Z to a-z). -/
def toLowerCp (c : Nat) : Nat := if 65 ≤ c ∧ c ≤ 90 then c + 32 else c

/-- Model of Rust `str::to_lowercase` (ASCII scope, see `toLowerCp`). -/
def toLowercase (l : List Nat) : List Nat := l.map toLowerCp

/-- Model of Rust `str::to_ascii_lowercase`. -/
def toAsciiLowercase (l : List Nat) : List Nat := l.map toLowerCp

/-- Model of Rust `str::contains` on code-point lists: does `needle` occur
as a contiguous substring of `haystack`? -/
def containsSub : List Nat → List Nat → Bool
  | needle, [] => needle.isEmpty
  | needle, x :: t => needle.isPrefixOf (x :: t) || containsSub needle t

/-- The needle `format!("COPY {}.{} ", schema, block).to_lowercase()` built
in both copy-block branches of `next_state`, as a code-point list. -/
def copyPattern (schema block : List Nat) : List Nat :=
  toLowercase (COPY_BLOCK_PREFIX ++ schema ++ [46] ++ block ++ [32])

/-- The classifier `State::next_state` from main.rs: given the previous
state, the raw line bytes and the options, computes the new state.
`none` models the `Err` propagated from `String::from_utf8`. -/
def State.next_state (self : State) (buf : List Nat) (opts : Options) : Option State :=
  if LO_CREATE.isPrefixOf buf then some .Statement
  else if LO_FN.isPrefixOf buf || LO_WRITE.isPrefixOf buf then some .LargeObject
  else if NEWLINE.isPrefixOf buf then
    match self with
    | .EmptyLine => some .ConsecutiveEmptyLine
    | .ConsecutiveEmptyLine => some .ConsecutiveEmptyLine
    | _ => some .EmptyLine
  else if COMMENT.isPrefixOf buf then some .Comment
  else if END_OF_COPY_BLOCK.isPrefixOf buf then
    match self with
    | .ExcludedCopyBlock => some .EndOfExcludedCopyBlock
    | state => some state
  else if COPY_BLOCK_PREFIX.isPrefixOf buf && COPY_BLOCK_SUFFIX.isSuffixOf buf then
    match utf8Decode buf with
    | none => none
    | some decoded =>
      if opts.excluded_copy_blocks.any
          (fun excluded_block =>
            containsSub (copyPattern opts.schema excluded_block) (toLowercase decoded)) then
        some .ExcludedCopyBlock
      else if !opts.included_copy_blocks.isEmpty
          && opts.included_copy_blocks.all
            (fun included_block =>
              !(containsSub (copyPattern opts.schema included_block)
                (toAsciiLowercase (toLowercase decoded)))) then
        some .ExcludedCopyBlock
      else some .Statement
  else
    match self with
    | .ExcludedCopyBlock => some .ExcludedCopyBlock
    | _ => some .Statement

/-- The decider `State::must_include` from main.rs. -/
def State.must_include (self : State) (opts : Options) (prev_included_state : State) : Bool :=
  match self with
  | .Comment => false
  | .ConsecutiveEmptyLine => false
  | .ExcludedCopyBlock => false
  | .EndOfExcludedCopyBlock => false
  | .LargeObject => if opts.exclude_large_objects then false else true
  | .EmptyLine => if prev_included_state = .EmptyLine then false else true
  | _ => true

/-- The filter loop from `main`: threads `state` and `prev_included_state`
through the lines, returning the emitted lines and whether the pass
completed without error (`false` models the `?`-propagated decode error,
after which nothing further is emitted). -/
def runFilter (opts : Options) : State → State → List (List Nat) → List (List Nat) × Bool
  | _, _, [] => ([], true)
  | state, prev, l :: ls =>
    match state.next_state l opts with
    | none => ([], false)
    | some newState =>
      if newState.must_include opts prev then
        let r := runFilter opts newState newState ls
        (l :: r.1, r.2)
      else runFilter opts newState prev ls

/-- The value of `prev_included_state` when the loop of `main` finishes
(or aborts on a decode error) after consuming the given lines. -/
def finalPrevInc (opts : Options) : State → State → List (List Nat) → State
  | _, prev, [] => prev
  | state, prev, l :: ls =>
    match state.next_state l opts with
    | none => prev
    | some newState =>
      if newState.must_include opts prev then finalPrevInc opts newState newState ls
      else finalPrevInc opts newState prev ls

/-- Modelled from the spec: the configuration loader "fails fast if both
`excluded_copy_blocks` and `included_copy_blocks` are non-empty".  The
enforcement itself lives in the structopt/clap library, driven by the
`conflicts_with = "included_copy_blocks"` attribute declared on `Options`
in main.rs; only that declaration is in the repository. -/
def mkOptions (excluded included : List (List Nat)) (exclude_lo : Bool) (schema : List Nat) :
    Option Options :=
  if !excluded.isEmpty && !included.isEmpty then none
  else some ⟨excluded, included, exclude_lo, schema⟩

/-- The default configuration: no block lists, large objects kept,
schema "public". -/
def defOpts : Options := ⟨[], [], false, ascii "public"⟩

example : ascii "public" = [112, 117, 98, 108, 105, 99] := by decide

/-! ### Helper lemmas about prefixes and the classifier's branches -/

lemma prefix_cons_shape {a : Nat} {l buf : List Nat} (h : (a :: l).isPrefixOf buf = true) :
    ∃ t, buf = a :: t := by
  rw [List.isPrefixOf_iff_prefix] at h
  obtain ⟨t, ht⟩ := h
  exact ⟨l ++ t, by simpa using ht.symm⟩

lemma not_prefix_cons {b a : Nat} {m t : List Nat} (hne : b ≠ a) :
    (b :: m).isPrefixOf (a :: t) = false := by
  rw [List.isPrefixOf_cons₂]
  simp [hne]

lemma shape_of_newline {buf : List Nat} (h : NEWLINE.isPrefixOf buf = true) :
    ∃ t, buf = 10 :: t := by
  unfold NEWLINE at h; exact prefix_cons_shape h

lemma shape_of_eob {buf : List Nat} (h : END_OF_COPY_BLOCK.isPrefixOf buf = true) :
    ∃ t, buf = 92 :: 46 :: t := by
  rw [List.isPrefixOf_iff_prefix] at h
  obtain ⟨t, ht⟩ := h
  exact ⟨t, by simpa [END_OF_COPY_BLOCK] using ht.symm⟩

lemma shape_of_copy_prefix {buf : List Nat} (h : COPY_BLOCK_PREFIX.isPrefixOf buf = true) :
    ∃ t, buf = 67 :: 79 :: 80 :: 89 :: 32 :: t := by
  rw [List.isPrefixOf_iff_prefix] at h
  obtain ⟨t, ht⟩ := h
  exact ⟨t, by simpa [COPY_BLOCK_PREFIX] using ht.symm⟩

/-- Rule 3 of the classifier: a line starting with a newline byte is an
empty line (consecutive when the previous state was already empty). -/
lemma next_state_of_newline (s : State) {buf : List Nat} (opts : Options)
    (h : NEWLINE.isPrefixOf buf = true) :
    s.next_state buf opts =
      some (if s = .EmptyLine ∨ s = .ConsecutiveEmptyLine then .ConsecutiveEmptyLine
            else .EmptyLine) := by
  obtain ⟨t, rfl⟩ := shape_of_newline h
  unfold State.next_state
  rw [if_neg, if_neg, if_pos]
  · cases s <;> simp
  · simp [NEWLINE]
  · simp [LO_FN, LO_WRITE, not_prefix_cons (by omega : (83 : Nat) ≠ 10)]
  · simp [LO_CREATE, not_prefix_cons (by omega : (83 : Nat) ≠ 10)]

/-- Rule 5 of the classifier: a line starting with the bytes of "\\." ends
an excluded copy block and otherwise carries the previous state forward. -/
lemma next_state_of_eob (s : State) {buf : List Nat} (opts : Options)
    (h : END_OF_COPY_BLOCK.isPrefixOf buf = true) :
    s.next_state buf opts =
      some (if s = .ExcludedCopyBlock then .EndOfExcludedCopyBlock else s) := by
  obtain ⟨t, rfl⟩ := shape_of_eob h
  unfold State.next_state
  rw [if_neg, if_neg, if_neg, if_neg, if_pos]
  · cases s <;> simp
  · exact h
  · simp [COMMENT, not_prefix_cons (by omega : (45 : Nat) ≠ 92)]
  · simp [NEWLINE, not_prefix_cons (by omega : (10 : Nat) ≠ 92)]
  · simp [LO_FN, LO_WRITE, not_prefix_cons (by omega : (83 : Nat) ≠ 92)]
  · simp [LO_CREATE, not_prefix_cons (by omega : (83 : Nat) ≠ 92)]

/-- A plain bulk-data row: a line matching none of the classifier's
prefix/suffix patterns, so that only the fallback rule can apply to it. -/
def plainDataLine (buf : List Nat) : Prop :=
  LO_CREATE.isPrefixOf buf = false ∧
  LO_FN.isPrefixOf buf = false ∧
  LO_WRITE.isPrefixOf buf = false ∧
  NEWLINE.isPrefixOf buf = false ∧
  COMMENT.isPrefixOf buf = false ∧
  END_OF_COPY_BLOCK.isPrefixOf buf = false ∧
  (COPY_BLOCK_PREFIX.isPrefixOf buf && COPY_BLOCK_SUFFIX.isSuffixOf buf) = false

instance (buf : List Nat) : Decidable (plainDataLine buf) := by
  unfold plainDataLine; infer_instance

/-- Fallback rule of the classifier on a plain data row: the state
persists inside an excluded copy block and is `Statement` otherwise. -/
lemma next_state_of_plain (s : State) {buf : List Nat} (opts : Options)
    (h : plainDataLine buf) :
    s.next_state buf opts =
      some (if s = .ExcludedCopyBlock then .ExcludedCopyBlock else .Statement) := by
  obtain ⟨h1, h2, h3, h4, h5, h6, h7⟩ := h
  unfold State.next_state
  rw [if_neg, if_neg, if_neg, if_neg, if_neg, if_neg]
  · cases s <;> simp
  · simp [h7]
  · simp [h6]
  · simp [h5]
  · simp [h4]
  · simp [h2, h3]
  · simp [h1]

/-- Rule 6 of the classifier: on a `COPY ... FROM stdin;` header the new
state is computed from the decoded line and the block lists alone; the
previous state plays no part. -/
lemma next_state_of_copy_header (s : State) {buf : List Nat} (opts : Options)
    (hpre : COPY_BLOCK_PREFIX.isPrefixOf buf = true)
    (hsuf : COPY_BLOCK_SUFFIX.isSuffixOf buf = true) :
    s.next_state buf opts =
      match utf8Decode buf with
      | none => none
      | some decoded =>
        if opts.excluded_copy_blocks.any
            (fun excluded_block =>
              containsSub (copyPattern opts.schema excluded_block) (toLowercase decoded)) then
          some .ExcludedCopyBlock
        else if !opts.included_copy_blocks.isEmpty
            && opts.included_copy_blocks.all
              (fun included_block =>
                !(containsSub (copyPattern opts.schema included_block)
                  (toAsciiLowercase (toLowercase decoded)))) then
          some .ExcludedCopyBlock
        else some .Statement := by
  obtain ⟨t, rfl⟩ := shape_of_copy_prefix hpre
  unfold State.next_state
  rw [if_neg, if_neg, if_neg, if_neg, if_neg, if_pos]
  · simp [hsuf, hpre]
  · simp [END_OF_COPY_BLOCK, not_prefix_cons (by omega : (92 : Nat) ≠ 67)]
  · simp [COMMENT, not_prefix_cons (by omega : (45 : Nat) ≠ 67)]
  · simp [NEWLINE, not_prefix_cons (by omega : (10 : Nat) ≠ 67)]
  · simp [LO_FN, LO_WRITE, not_prefix_cons (by omega : (83 : Nat) ≠ 67)]
  · simp [LO_CREATE, not_prefix_cons (by omega : (83 : Nat) ≠ 67)]

lemma must_include_excluded (opts : Options) (prev : State) :
    State.must_include .ExcludedCopyBlock opts prev = false := rfl

lemma must_include_eob (opts : Options) (prev : State) :
    State.must_include .EndOfExcludedCopyBlock opts prev = false := rfl

lemma must_include_consecutive (opts : Options) (prev : State) :
    State.must_include .ConsecutiveEmptyLine opts prev = false := rfl

lemma must_include_empty_after_empty (opts : Options) :
    State.must_include .EmptyLine opts .EmptyLine = false := by
  simp [State.must_include]

lemma must_include_statement (opts : Options) (prev : State) :
    State.must_include .Statement opts prev = true := rfl

/-- Options used in the copy-block counterexample: exclude the block
"orders" in schema "public". -/
def loOpts : Options := ⟨[ascii "orders"], [], false, ascii "public"⟩

/-- C1 counterexample: with `excluded_copy_blocks = ["orders"]` the header
`COPY public.orders FROM stdin;` is classified `ExcludedCopyBlock`, yet the
data row `SELECT pg_catalog.lo_create(1);` inside that block and the
block's own terminator `\.` are both emitted, because rule 1 of the
classifier fires before the excluded-block fallback.  This contradicts the
claim that every line up to and including the terminator is dropped. -/
theorem copy_block_atomicity_cex :
    State.next_state .Init (ascii "COPY public.orders FROM stdin;\n") loOpts
        = some .ExcludedCopyBlock
    ∧ (runFilter loOpts .Init .Init
        [ascii "COPY public.orders FROM stdin;\n",
         ascii "SELECT pg_catalog.lo_create(1);\n",
         ascii "\\.\n"]).1
        = [ascii "SELECT pg_catalog.lo_create(1);\n", ascii "\\.\n"] := by
  constructor
  · decide
  · decide

/-- Behaviour of the loop from the `ExcludedCopyBlock` state: plain data
rows and the block's own terminator are dropped and the loop resumes from
`EndOfExcludedCopyBlock` with the previous-included-state untouched. -/
lemma runFilter_excluded_block (opts : Options) (prev : State)
    (ds rest : List (List Nat)) (term : List Nat)
    (hds : ∀ d ∈ ds, plainDataLine d)
    (hterm : END_OF_COPY_BLOCK.isPrefixOf term = true) :
    runFilter opts .ExcludedCopyBlock prev (ds ++ term :: rest) =
      runFilter opts .EndOfExcludedCopyBlock prev rest := by
  induction ds with
  | nil =>
    simp only [List.nil_append, runFilter]
    rw [next_state_of_eob .ExcludedCopyBlock opts hterm]
    simp [must_include_eob]
  | cons d ds ih =>
    have hd : plainDataLine d := hds d (by simp)
    simp only [List.cons_append, runFilter]
    rw [next_state_of_plain .ExcludedCopyBlock opts hd]
    simp only [reduceIte, must_include_excluded, Bool.false_eq_true, if_false]
    exact ih (fun x hx => hds x (by simp [hx]))

/-- C1 (amended): once the classifier is in `ExcludedCopyBlock`, every
subsequent plain data row (one matching none of the classifier's other
patterns) up to and including the block's own `\.` terminator is dropped,
and the loop continues on the remaining lines from `EndOfExcludedCopyBlock`
with the previous-included-state untouched; moreover the classification of
any `COPY ... FROM stdin;` header never depends on the previous state, so a
later, non-excluded copy block is unaffected by this block. -/
theorem copy_block_atomicity (opts : Options) (prev : State)
    (ds rest : List (List Nat)) (term : List Nat)
    (hds : ∀ d ∈ ds, plainDataLine d)
    (hterm : END_OF_COPY_BLOCK.isPrefixOf term = true) :
    runFilter opts .ExcludedCopyBlock prev (ds ++ term :: rest) =
      runFilter opts .EndOfExcludedCopyBlock prev rest
    ∧ ∀ (s1 s2 : State) (header : List Nat),
        COPY_BLOCK_PREFIX.isPrefixOf header = true →
        COPY_BLOCK_SUFFIX.isSuffixOf header = true →
        s1.next_state header opts = s2.next_state header opts := by
  constructor
  · exact runFilter_excluded_block opts prev ds rest term hds hterm
  · intro s1 s2 header hp hs
    rw [next_state_of_copy_header s1 opts hp hs, next_state_of_copy_header s2 opts hp hs]

/-- Witness for `copy_block_atomicity` at a concrete excluded block with
one plain data row. -/
theorem copy_block_atomicity_witness :
    runFilter loOpts .ExcludedCopyBlock .Init
        [ascii "1\t2\n", ascii "\\.\n", ascii "SELECT 1;\n"] =
      runFilter loOpts .EndOfExcludedCopyBlock .Init [ascii "SELECT 1;\n"] :=
  (copy_block_atomicity loOpts .Init [ascii "1\t2\n"] [ascii "SELECT 1;\n"]
    (ascii "\\.\n") (by decide) (by decide)).1

/-- C3 counterexample: on a first line that starts with the bytes of
"\\." the classifier carries the previous state forward, so it returns
`Init` after the first line has been processed, contradicting the claim
that the classifier never returns `Init`. -/
theorem init_never_returned_cex :
    State.next_state .Init (ascii "\\.\n") defOpts = some .Init := by decide

/-- C3 (amended): the classifier returns `Init` only by the carry-forward
of the end-of-copy-block rule, namely when the previous state is already
`Init` and the line starts with "\\."; in every other situation the new
state is never `Init`. -/
theorem init_only_carried (s st : State) (buf : List Nat) (opts : Options)
    (h : s.next_state buf opts = some st) (hst : st = .Init) :
    s = .Init ∧ END_OF_COPY_BLOCK.isPrefixOf buf = true := by
  subst hst
  unfold State.next_state at h
  repeat' split at h
  all_goals simp_all

/-- Witness for `init_only_carried`: the first line of
`init_never_returned_cex` instantiates both hypotheses. -/
theorem init_only_carried_witness :
    (.Init : State) = .Init ∧ END_OF_COPY_BLOCK.isPrefixOf (ascii "\\.\n") = true :=
  init_only_carried .Init .Init (ascii "\\.\n") defOpts (by decide) rfl

/-- C6 counterexample: the line "\\nx" begins with a newline byte but has a
further byte, yet the classifier assigns it `EmptyLine`, contradicting the
claim that `EmptyLine` is assigned only to a line that is exactly the
single newline character. -/
theorem empty_line_exact_cex :
    State.next_state .Init (ascii "\nx") defOpts = some .EmptyLine
    ∧ ascii "\nx" ≠ [10] := by
  constructor
  · decide
  · decide

/-- C6 (amended): the classifier assigns `EmptyLine` or
`ConsecutiveEmptyLine` to a line if and only if the line begins with the
newline byte, or the line begins with "\\." while the previous state is
already `EmptyLine` or `ConsecutiveEmptyLine` (the carry-forward of the
end-of-copy-block rule).  For lines produced by the loop's
`read_until(b'\n')`, which contain a newline only in final position,
beginning with a newline coincides with being exactly the newline. -/
theorem empty_line_classification (s st : State) (buf : List Nat) (opts : Options)
    (h : s.next_state buf opts = some st) :
    (st = .EmptyLine ∨ st = .ConsecutiveEmptyLine) ↔
      (NEWLINE.isPrefixOf buf = true ∨
        (END_OF_COPY_BLOCK.isPrefixOf buf = true ∧
          (s = .EmptyLine ∨ s = .ConsecutiveEmptyLine))) := by
  by_cases h1 : NEWLINE.isPrefixOf buf = true
  · rw [next_state_of_newline s opts h1] at h
    have hst : st = (if s = .EmptyLine ∨ s = .ConsecutiveEmptyLine
        then State.ConsecutiveEmptyLine else State.EmptyLine) := by
      exact (Option.some_inj.mp h).symm
    subst hst
    simp only [h1, true_or, iff_true]
    split <;> simp
  · by_cases h2 : END_OF_COPY_BLOCK.isPrefixOf buf = true
    · rw [next_state_of_eob s opts h2] at h
      have hst : st = (if s = .ExcludedCopyBlock
          then State.EndOfExcludedCopyBlock else s) := by
        exact (Option.some_inj.mp h).symm
      subst hst
      simp only [h1, false_or, h2, true_and]
      split
      · subst_vars; simp_all
      · cases s <;> simp
    · simp only [h1, Bool.false_eq_true, false_or]
      have hrhs : ¬(END_OF_COPY_BLOCK.isPrefixOf buf = true ∧
          (s = .EmptyLine ∨ s = .ConsecutiveEmptyLine)) := fun hc => h2 hc.1
      simp only [hrhs, iff_false]
      unfold State.next_state at h
      repeat' split at h
      all_goals try simp only [Option.some_inj] at h
      all_goals try subst h
      all_goals simp_all

/-- Witness for `empty_line_classification` at the blank line [10]. -/
theorem empty_line_classification_witness :
    ((.EmptyLine : State) = .EmptyLine ∨ (.EmptyLine : State) = .ConsecutiveEmptyLine) ↔
      (NEWLINE.isPrefixOf [10] = true ∨
        (END_OF_COPY_BLOCK.isPrefixOf [10] = true ∧
          ((.Init : State) = .EmptyLine ∨ (.Init : State) = .ConsecutiveEmptyLine))) :=
  empty_line_classification .Init .EmptyLine [10] defOpts (by decide)

/-- C4: when `exclude_large_objects` is set, a line starting with
"SELECT pg_catalog.lo_create" is classified `Statement` and always
emitted, while any other line starting with "SELECT pg_catalog.lo_" or
"SELECT pg_catalog.lowrite" is classified `LargeObject` and dropped. -/
theorem large_object_preservation (s : State) (buf : List Nat) (opts : Options) (prev : State)
    (hlo : opts.exclude_large_objects = true) :
    (LO_CREATE.isPrefixOf buf = true →
      s.next_state buf opts = some .Statement ∧
        State.must_include .Statement opts prev = true)
    ∧ ((LO_FN.isPrefixOf buf = true ∨ LO_WRITE.isPrefixOf buf = true) →
        LO_CREATE.isPrefixOf buf = false →
        s.next_state buf opts = some .LargeObject ∧
          State.must_include .LargeObject opts prev = false) := by
  constructor
  · intro h
    refine ⟨?_, rfl⟩
    unfold State.next_state
    rw [if_pos h]
  · intro hor hnc
    constructor
    · unfold State.next_state
      rw [if_neg, if_pos]
      · rcases hor with h | h <;> simp [h]
      · simp [hnc]
    · simp [State.must_include, hlo]

/-- Witness for `large_object_preservation` on a concrete lo_create line
and a concrete lowrite line with large-object exclusion on. -/
theorem large_object_preservation_witness :
    (State.next_state .Init (ascii "SELECT pg_catalog.lo_create(42);\n")
          ⟨[], [], true, ascii "public"⟩ = some .Statement ∧
      State.must_include .Statement ⟨[], [], true, ascii "public"⟩ .Init = true)
    ∧ (State.next_state .Init (ascii "SELECT pg_catalog.lowrite(0, 'x');\n")
          ⟨[], [], true, ascii "public"⟩ = some .LargeObject ∧
        State.must_include .LargeObject ⟨[], [], true, ascii "public"⟩ .Init = false) :=
  ⟨(large_object_preservation .Init (ascii "SELECT pg_catalog.lo_create(42);\n")
      ⟨[], [], true, ascii "public"⟩ .Init rfl).1 (by decide),
   (large_object_preservation .Init (ascii "SELECT pg_catalog.lowrite(0, 'x');\n")
      ⟨[], [], true, ascii "public"⟩ .Init rfl).2 (Or.inr (by decide)) (by decide)⟩

lemma toLowerCp_idem (c : Nat) : toLowerCp (toLowerCp c) = toLowerCp c := by
  unfold toLowerCp
  split_ifs <;> omega

lemma toAsciiLowercase_idem (l : List Nat) :
    toAsciiLowercase (toLowercase l) = toLowercase l := by
  simp [toAsciiLowercase, toLowercase, List.map_map, Function.comp, toLowerCp_idem]

/-- Rule 6 of the classifier on a header whose bytes decode successfully:
the result depends only on the lowercased decoded line and the block
lists. -/
lemma next_state_of_copy_header_some (s : State) {buf decoded : List Nat} (opts : Options)
    (hpre : COPY_BLOCK_PREFIX.isPrefixOf buf = true)
    (hsuf : COPY_BLOCK_SUFFIX.isSuffixOf buf = true)
    (hdec : utf8Decode buf = some decoded) :
    s.next_state buf opts =
      (if opts.excluded_copy_blocks.any
          (fun excluded_block =>
            containsSub (copyPattern opts.schema excluded_block) (toLowercase decoded)) then
        some .ExcludedCopyBlock
      else if !opts.included_copy_blocks.isEmpty
          && opts.included_copy_blocks.all
            (fun included_block =>
              !(containsSub (copyPattern opts.schema included_block)
                (toAsciiLowercase (toLowercase decoded)))) then
        some .ExcludedCopyBlock
      else some .Statement) := by
  rw [next_state_of_copy_header s opts hpre hsuf, hdec]

/-- Classification on a header under a non-empty allow-list (and hence,
by mutual exclusivity, an empty exclude list): the header is classified
`ExcludedCopyBlock` when its lowercased content contains the needle
`copy schema.name ` for none of the allow-list names, and `Statement` when
it contains the needle for some allow-list name. -/
lemma next_state_allow_list (s : State) (buf decoded : List Nat) (opts : Options)
    (hpre : COPY_BLOCK_PREFIX.isPrefixOf buf = true)
    (hsuf : COPY_BLOCK_SUFFIX.isSuffixOf buf = true)
    (hdec : utf8Decode buf = some decoded)
    (hexc : opts.excluded_copy_blocks = [])
    (hinc : opts.included_copy_blocks ≠ []) :
    ((∀ b ∈ opts.included_copy_blocks,
        containsSub (copyPattern opts.schema b) (toLowercase decoded) = false) →
      s.next_state buf opts = some .ExcludedCopyBlock)
    ∧ ((∃ b ∈ opts.included_copy_blocks,
        containsSub (copyPattern opts.schema b) (toLowercase decoded) = true) →
      s.next_state buf opts = some .Statement) := by
  have hkey := next_state_of_copy_header_some s opts hpre hsuf hdec
  simp only [toAsciiLowercase_idem] at hkey
  have hanyf : opts.excluded_copy_blocks.any
      (fun excluded_block =>
        containsSub (copyPattern opts.schema excluded_block) (toLowercase decoded)) = false := by
    rw [hexc]; rfl
  have hne : opts.included_copy_blocks.isEmpty = false := by
    cases hl : opts.included_copy_blocks with
    | nil => exact absurd hl hinc
    | cons a t => rfl
  rw [hanyf] at hkey
  simp only [Bool.false_eq_true, if_false, hne, Bool.not_false, Bool.true_and] at hkey
  constructor
  · intro hall
    rw [hkey, if_pos]
    rw [List.all_eq_true]
    intro b hb
    simp [hall b hb]
  · rintro ⟨b, hb, hc⟩
    rw [hkey, if_neg]
    intro hallt
    rw [List.all_eq_true] at hallt
    have := hallt b hb
    simp [hc] at this

/-- Allow-list options used in the C5 counterexample and witness:
include only the block "orders" in schema "public". -/
def incOpts : Options := ⟨[], [ascii "orders"], false, ascii "public"⟩

/-- C5 counterexample: with allow-list ["orders"], the header
`COPY public.customers FROM stdin;` is classified `ExcludedCopyBlock` as
claimed, yet the block is not entirely dropped: its data row
`SELECT pg_catalog.lo_create(1);` matches rule 1 of the classifier and is
emitted, after which the block's own `\.` terminator carries `Statement`
and is emitted as well. -/
theorem allow_list_block_drop_cex :
    State.next_state .Init (ascii "COPY public.customers FROM stdin;\n") incOpts
        = some .ExcludedCopyBlock
    ∧ (runFilter incOpts .Init .Init
        [ascii "COPY public.customers FROM stdin;\n",
         ascii "SELECT pg_catalog.lo_create(1);\n",
         ascii "\\.\n"]).1
        = [ascii "SELECT pg_catalog.lo_create(1);\n", ascii "\\.\n"] := by
  constructor
  · decide
  · decide

/-- C5 (amended): when the allow-list is non-empty (and the exclude list
hence empty), a `COPY ... FROM stdin;` header matched by no allow-list
name is classified `ExcludedCopyBlock`, and the header together with every
plain data row (one matching none of the classifier's other patterns) up
to and including the block's own `\.` terminator is dropped even though no
exclude list mentions it, the loop resuming from `EndOfExcludedCopyBlock`;
a data row matching an earlier classifier rule escapes the block.  A
header matched by some allow-list name is classified `Statement` and
emitted. -/
theorem allow_list_miss_block_dropped (s : State) (buf decoded : List Nat) (opts : Options)
    (prev : State) (ds rest : List (List Nat)) (term : List Nat)
    (hpre : COPY_BLOCK_PREFIX.isPrefixOf buf = true)
    (hsuf : COPY_BLOCK_SUFFIX.isSuffixOf buf = true)
    (hdec : utf8Decode buf = some decoded)
    (hexc : opts.excluded_copy_blocks = [])
    (hinc : opts.included_copy_blocks ≠ [])
    (hds : ∀ d ∈ ds, plainDataLine d)
    (hterm : END_OF_COPY_BLOCK.isPrefixOf term = true) :
    ((∀ b ∈ opts.included_copy_blocks,
        containsSub (copyPattern opts.schema b) (toLowercase decoded) = false) →
      s.next_state buf opts = some .ExcludedCopyBlock
      ∧ runFilter opts s prev (buf :: (ds ++ term :: rest)) =
          runFilter opts .EndOfExcludedCopyBlock prev rest)
    ∧ ((∃ b ∈ opts.included_copy_blocks,
        containsSub (copyPattern opts.schema b) (toLowercase decoded) = true) →
      s.next_state buf opts = some .Statement
      ∧ runFilter opts s prev (buf :: rest) =
          (buf :: (runFilter opts .Statement .Statement rest).1,
            (runFilter opts .Statement .Statement rest).2)) := by
  have hcls := next_state_allow_list s buf decoded opts hpre hsuf hdec hexc hinc
  constructor
  · intro hall
    have h1 : s.next_state buf opts = some .ExcludedCopyBlock := hcls.1 hall
    refine ⟨h1, ?_⟩
    simp only [runFilter]
    rw [h1]
    simp only [must_include_excluded, Bool.false_eq_true, if_false]
    exact runFilter_excluded_block opts prev ds rest term hds hterm
  · intro hex
    have h2 : s.next_state buf opts = some .Statement := hcls.2 hex
    refine ⟨h2, ?_⟩
    simp only [runFilter]
    rw [h2]
    simp only [must_include_statement, if_true]

/-- Witness for `allow_list_miss_block_dropped`: with allow-list
["orders"], a missed `customers` block with one plain data row is dropped
whole, and a matched `orders` header is emitted. -/
theorem allow_list_miss_block_dropped_witness :
    (State.next_state .Init (ascii "COPY public.customers FROM stdin;\n") incOpts
        = some .ExcludedCopyBlock
      ∧ runFilter incOpts .Init .Init
          [ascii "COPY public.customers FROM stdin;\n", ascii "1\t2\n", ascii "\\.\n"] =
        runFilter incOpts .EndOfExcludedCopyBlock .Init [])
    ∧ (State.next_state .Init (ascii "COPY public.orders FROM stdin;\n") incOpts
        = some .Statement
      ∧ runFilter incOpts .Init .Init [ascii "COPY public.orders FROM stdin;\n"] =
          (ascii "COPY public.orders FROM stdin;\n" ::
              (runFilter incOpts .Statement .Statement []).1,
            (runFilter incOpts .Statement .Statement []).2)) :=
  ⟨(allow_list_miss_block_dropped .Init (ascii "COPY public.customers FROM stdin;\n")
      (ascii "COPY public.customers FROM stdin;\n") incOpts .Init
      [ascii "1\t2\n"] [] (ascii "\\.\n")
      (by decide) (by decide) (by decide) rfl (by decide) (by decide) (by decide)).1
      (by decide),
   (allow_list_miss_block_dropped .Init (ascii "COPY public.orders FROM stdin;\n")
      (ascii "COPY public.orders FROM stdin;\n") incOpts .Init
      [] [] (ascii "\\.\n")
      (by decide) (by decide) (by decide) rfl (by decide) (by decide) (by decide)).2
      ⟨ascii "orders", by decide, by decide⟩⟩

/-- C7: the classifier succeeds on every line that is valid UTF-8, and a
classification error can arise only on a line that starts with "COPY ",
ends with "FROM stdin;" plus newline, and is not valid UTF-8. -/
theorem classifier_error_only_invalid_utf8 (s : State) (buf : List Nat) (opts : Options) :
    ((utf8Decode buf).isSome = true → (s.next_state buf opts).isSome = true)
    ∧ (s.next_state buf opts = none →
        COPY_BLOCK_PREFIX.isPrefixOf buf = true ∧ COPY_BLOCK_SUFFIX.isSuffixOf buf = true ∧
          utf8Decode buf = none) := by
  constructor
  · intro h
    unfold State.next_state
    repeat' split
    all_goals simp_all
  · intro h
    unfold State.next_state at h
    repeat' split at h
    all_goals simp_all

/-- Witness for `classifier_error_only_invalid_utf8`: a valid-UTF-8 line
classifies successfully, and a COPY header containing the stray byte 255
triggers the decode error. -/
theorem classifier_error_only_invalid_utf8_witness :
    (State.next_state .Init (ascii "SELECT 1;\n") defOpts).isSome = true
    ∧ (COPY_BLOCK_PREFIX.isPrefixOf (ascii "COPY public.a" ++ [255] ++ ascii " FROM stdin;\n") = true
        ∧ COPY_BLOCK_SUFFIX.isSuffixOf (ascii "COPY public.a" ++ [255] ++ ascii " FROM stdin;\n") = true
        ∧ utf8Decode (ascii "COPY public.a" ++ [255] ++ ascii " FROM stdin;\n") = none) :=
  ⟨(classifier_error_only_invalid_utf8 .Init (ascii "SELECT 1;\n") defOpts).1 (by decide),
   (classifier_error_only_invalid_utf8 .Init
      (ascii "COPY public.a" ++ [255] ++ ascii " FROM stdin;\n") defOpts).2 (by decide)⟩

/-- C8: a configuration with both an exclude list and an include list is
rejected at construction time, before any line is processed. -/
theorem allow_list_exclusivity (excluded included : List (List Nat))
    (exclude_lo : Bool) (schema : List Nat)
    (he : excluded ≠ []) (hi : included ≠ []) :
    mkOptions excluded included exclude_lo schema = none := by
  cases excluded with
  | nil => exact absurd rfl he
  | cons x xs =>
    cases included with
    | nil => exact absurd rfl hi
    | cons y ys => rfl

/-- Witness for `allow_list_exclusivity` at concrete one-element lists. -/
theorem allow_list_exclusivity_witness :
    mkOptions [ascii "a"] [ascii "b"] false (ascii "public") = none :=
  allow_list_exclusivity [ascii "a"] [ascii "b"] false (ascii "public")
    (by decide) (by decide)

/-- C9 (Scenario A): with the default configuration, the input lines
`["-- comment\n", "\n", "\n", "SELECT 1;\n"]` produce exactly the output
lines `["\n", "SELECT 1;\n"]`, with no error. -/
theorem scenario_a :
    runFilter defOpts .Init .Init
        [ascii "-- comment\n", [10], [10], ascii "SELECT 1;\n"]
      = ([[10], ascii "SELECT 1;\n"], true) := by
  decide

/-- No two consecutive entries of the list are both the blank line [10]. -/
def NoConsecBlank (out : List (List Nat)) : Prop :=
  List.Chain' (fun a b => ¬(a = [10] ∧ b = [10])) out

/-- A blank line (exactly one newline byte) is always classified
`EmptyLine` or `ConsecutiveEmptyLine`. -/
lemma blank_state (s : State) (opts : Options) (st : State)
    (h : s.next_state [10] opts = some st) :
    st = .EmptyLine ∨ st = .ConsecutiveEmptyLine := by
  rw [next_state_of_newline s opts (by decide)] at h
  split at h
  · right; exact (Option.some_inj.mp h).symm
  · left; exact (Option.some_inj.mp h).symm

/-- Invariant of the filter loop behind C2: the emitted lines contain no
two consecutive blanks, and when the previous included state is
`EmptyLine` the next emitted line is never blank. -/
lemma runFilter_no_consec_blank (opts : Options) :
    ∀ (lines : List (List Nat)) (st prev : State),
      NoConsecBlank (runFilter opts st prev lines).1 ∧
        (prev = .EmptyLine →
          ∀ x ∈ (runFilter opts st prev lines).1.head?, x ≠ [10]) := by
  intro lines
  induction lines with
  | nil =>
    intro st prev
    exact ⟨List.chain'_nil, by simp [runFilter]⟩
  | cons l ls ih =>
    intro st prev
    cases hm : st.next_state l opts with
    | none =>
      refine ⟨by simp [runFilter, hm, NoConsecBlank], ?_⟩
      intro hprev x hx
      simp [runFilter, hm] at hx
    | some st2 =>
      by_cases hinc : st2.must_include opts prev = true
      · have hrun : runFilter opts st prev (l :: ls) =
            (l :: (runFilter opts st2 st2 ls).1, (runFilter opts st2 st2 ls).2) := by
          simp [runFilter, hm, hinc]
        constructor
        · rw [hrun]
          apply List.chain'_cons'.mpr
          refine ⟨?_, (ih st2 st2).1⟩
          rintro y hy ⟨hl, hy10⟩
          subst hl
          rcases blank_state st opts st2 hm with h2 | h2
          · subst h2
            exact (ih .EmptyLine .EmptyLine).2 rfl y hy hy10
          · subst h2
            rw [must_include_consecutive] at hinc
            exact absurd hinc (by simp)
        · intro hprev x hx
          subst hprev
          rw [hrun] at hx
          simp only [List.head?_cons, Option.mem_def, Option.some_inj] at hx
          subst hx
          intro hl10
          subst hl10
          rcases blank_state st opts st2 hm with h2 | h2
          · subst h2
            rw [must_include_empty_after_empty] at hinc
            exact absurd hinc (by simp)
          · subst h2
            rw [must_include_consecutive] at hinc
            exact absurd hinc (by simp)
      · have hrun : runFilter opts st prev (l :: ls) = runFilter opts st2 prev ls := by
          simp [runFilter, hm, hinc]
        rw [hrun]
        exact ih st2 prev

/-- C2: for every configuration and input sequence, the emitted lines
never contain two consecutive blank lines (each exactly one newline byte),
including across intervening dropped lines. -/
theorem no_consecutive_blank_lines (opts : Options) (lines : List (List Nat)) :
    NoConsecBlank (runFilter opts .Init .Init lines).1 :=
  (runFilter_no_consec_blank opts lines .Init .Init).1

/-- Any state accepted by `must_include` is one of the four states that
`prev_included_state` can take, and is `LargeObject` only when large
objects are not excluded. -/
lemma must_include_allowed {st : State} {opts : Options} {prev : State}
    (h : st.must_include opts prev = true) :
    (st = .Init ∨ st = .EmptyLine ∨ st = .Statement ∨ st = .LargeObject) ∧
      (opts.exclude_large_objects = true → st ≠ .LargeObject) := by
  cases st <;> simp_all [State.must_include]

/-- Invariant of the filter loop behind C10, generalised over the starting
states. -/
lemma finalPrevInc_allowed (opts : Options) :
    ∀ (lines : List (List Nat)) (st prev : State),
      ((prev = .Init ∨ prev = .EmptyLine ∨ prev = .Statement ∨ prev = .LargeObject) ∧
        (opts.exclude_large_objects = true → prev ≠ .LargeObject)) →
      ((finalPrevInc opts st prev lines = .Init ∨
          finalPrevInc opts st prev lines = .EmptyLine ∨
          finalPrevInc opts st prev lines = .Statement ∨
          finalPrevInc opts st prev lines = .LargeObject) ∧
        (opts.exclude_large_objects = true →
          finalPrevInc opts st prev lines ≠ .LargeObject)) := by
  intro lines
  induction lines with
  | nil =>
    intro st prev h
    simpa [finalPrevInc] using h
  | cons l ls ih =>
    intro st prev h
    cases hm : st.next_state l opts with
    | none => simpa [finalPrevInc, hm] using h
    | some st2 =>
      by_cases hinc : st2.must_include opts prev = true
      · have hall := must_include_allowed hinc
        have hrun : finalPrevInc opts st prev (l :: ls) = finalPrevInc opts st2 st2 ls := by
          simp [finalPrevInc, hm, hinc]
        rw [hrun]
        exact ih st2 st2 hall
      · have hrun : finalPrevInc opts st prev (l :: ls) = finalPrevInc opts st2 prev ls := by
          simp [finalPrevInc, hm, hinc]
        rw [hrun]
        exact ih st2 prev h

/-- C10: over any run of the filter loop, `prev_included_state` is only
ever `Init`, `EmptyLine`, `Statement` or `LargeObject` — never `Comment`,
`ConsecutiveEmptyLine`, `ExcludedCopyBlock` or `EndOfExcludedCopyBlock` —
and it is never `LargeObject` while `exclude_large_objects` is set. -/
theorem prev_included_state_invariant (opts : Options) (lines : List (List Nat)) :
    (finalPrevInc opts .Init .Init lines = .Init ∨
      finalPrevInc opts .Init .Init lines = .EmptyLine ∨
      finalPrevInc opts .Init .Init lines = .Statement ∨
      finalPrevInc opts .Init .Init lines = .LargeObject) ∧
      (opts.exclude_large_objects = true →
        finalPrevInc opts .Init .Init lines ≠ .LargeObject) :=
  finalPrevInc_allowed opts lines .Init .Init (by simp)

/-- Witness for `prev_included_state_invariant` with large-object
exclusion on and a lowrite line in the input. -/
theorem prev_included_state_invariant_witness :
    finalPrevInc ⟨[], [], true, ascii "public"⟩ .Init .Init
        [ascii "SELECT pg_catalog.lowrite(0);\n"] ≠ .LargeObject :=
  (prev_included_state_invariant ⟨[], [], true, ascii "public"⟩
    [ascii "SELECT pg_catalog.lowrite(0);\n"]).2 rfl

end PgdumpFilter
